import Mathlib

/-!
Shallow embedding of the prowl command-line client (prowl.py) and proofs
about its argument normalization, validation, request composition,
settings persistence and error reporting.

External collaborators (the HTTP transport, the remote API, OS identity
lookup, the argparse machinery itself) are modelled only at their
interface boundary: parsed argument values enter the model as plain data,
and the single outbound side effect (POST or settings write) is the
model's result.
-/

namespace Prowl

/-! ### Decimal digits (used by Python str of int, and by the JSON model) -/

/-- The decimal digit character for `d`, meaningful for `d < 10`. -/
def digitChar (d : Nat) : Char := Char.ofNat (48 + d)

/-- Decimal digits of `n`, most significant first.  Fuel-driven structural
recursion so that terms reduce inside the kernel. -/
def natToCharsAux : Nat → Nat → List Char
  | 0, _ => []
  | fuel + 1, n =>
    if n < 10 then [digitChar n] else natToCharsAux fuel (n / 10) ++ [digitChar (n % 10)]

/-- Decimal digits of a natural number, as Python str would print it. -/
def natToChars (n : Nat) : List Char := natToCharsAux (n + 1) n

/-- Python str and repr of an int. -/
def intChars (n : Int) : List Char :=
  if n < 0 then '-' :: natToChars n.natAbs else natToChars n.natAbs

/-- Python str and repr of an int, as a string. -/
def intStr (n : Int) : String := String.mk (intChars n)

/-! ### Python exception values

The source's UserError stores a message template and format arguments:
its constructor computes `self.message = msg.format(args)`.  CPython's
`BaseException.__new__` also records the raw constructor arguments in
`e.args`, and `str(e)` returns `str(e.args[0])` when there is exactly one
argument and `str(e.args)` (the repr of the tuple) otherwise. -/

/-- A Python value appearing as a UserError format argument. -/
inductive EArg where
  | s (v : String)
  | i (n : Int)
deriving DecidableEq

/-- Model of the UserError exception: the raw message template plus the
format arguments handed to the constructor. -/
structure UserError where
  template : String
  fmtArgs : List EArg
deriving DecidableEq

/-- Python str of a format argument. -/
def strEArg : EArg → String
  | .s v => v
  | .i n => intStr n

/-- Python repr of a string consisting of printable characters: the
content is wrapped in single quotes, or in double quotes when the content
contains a single quote but no double quote; a quote equal to the chosen
delimiter and a backslash are escaped.  (Control characters receive
further escapes in CPython; the strings this development evaluates repr
on are printable, where this definition agrees with CPython.) -/
def pyReprStr (s : String) : String :=
  let q : Char := if '\x27' ∈ s.data ∧ ¬ '"' ∈ s.data then '"' else '\x27'
  let esc : List Char := s.data.foldr
    (fun c acc => if c = q ∨ c = '\\' then '\\' :: c :: acc else c :: acc) []
  String.mk (q :: esc ++ [q])

/-- Python repr of a format argument. -/
def reprEArg : EArg → String
  | .s v => pyReprStr v
  | .i n => intStr n

/-- Python str of the modelled exception, per CPython BaseException:
`e.args` is `(template, fmtArgs...)`; one element yields that element's
str, several yield the repr of the tuple. -/
def strUserError (e : UserError) : String :=
  match e.fmtArgs with
  | [] => e.template
  | _ =>
    "(" ++ String.intercalate ", " (pyReprStr e.template :: e.fmtArgs.map reprEArg) ++ ")"

/-- Python str.format restricted to plain positional placeholders, which
is all the source uses; each occurrence of the two-character placeholder
consumes the next argument. -/
def pyFormatChars : List Char → List EArg → List Char
  | [], _ => []
  | '\x7b' :: '\x7d' :: rest, a :: as => (strEArg a).data ++ pyFormatChars rest as
  | c :: rest, as => c :: pyFormatChars rest as

/-- The formatted message computed by UserError's constructor
(`self.message = msg.format(args)`). -/
def UserError.message (e : UserError) : String :=
  String.mk (pyFormatChars e.template.data e.fmtArgs)

/-! ### Argument conversion functions (api_argument_type, api_key_type) -/

/-- Workaround from the source: the literal value "0" gains one trailing
space; every other value passes through unchanged. -/
def api_argument_type (value : String) : String :=
  if value = "0" then value ++ " " else value

/-- Lowercase hexadecimal digit class of the source's key pattern. -/
def isLowerHex (c : Char) : Bool :=
  (48 ≤ c.toNat && c.toNat ≤ 57) || (97 ≤ c.toNat && c.toNat ≤ 102)

/-- Consume exactly `n` characters satisfying `p`, returning the rest of
the input (the fixed-repetition part of the source's regular
expression, anchored at the start as re.match is). -/
def matchRepeat (p : Char → Bool) : Nat → List Char → Option (List Char)
  | 0, cs => some cs
  | _ + 1, [] => none
  | n + 1, c :: cs => if p c then matchRepeat p n cs else none

/-- Python's end anchor outside MULTILINE mode: it matches at the end of
the string, and also just before a newline that ends the string, so the
remaining input must be empty or exactly one final newline. -/
def dollarMatches : List Char → Bool
  | [] => true
  | c :: rest => decide (c = '\n' ∧ rest = [])

/-- Model of `re.match` of forty lowercase hex digits followed by the end
anchor, applied to the whole value. -/
def api_key_matches (value : String) : Bool :=
  match matchRepeat isLowerHex 40 value.data with
  | some rest => dollarMatches rest
  | none => false

/-- Error raised for a key failing the pattern. -/
def invalidKeyError : UserError := ⟨"Invalid API key specified.", []⟩

/-- The api_key_type conversion: the value passes through when the
pattern matches and raises UserError otherwise. -/
def api_key_type (value : String) : Except UserError String :=
  if api_key_matches value then .ok value else .error invalidKeyError

/-! ### parse_args: bound argument values and post-parse validation -/

/-- The argparse namespace after binding and per-argument conversion:
the two optional positionals (already through api_argument_type), the
flags, the defaulted priority, and the two key flags (already through
api_key_type). -/
structure Args where
  event : Option String
  description : Option String
  application : Option String
  url : Option String
  priority : Int
  api_key : Option String
  set_api_key : Option String
deriving DecidableEq

def missingDescriptionError : UserError :=
  ⟨"Required argument `description\x27 missing.", []⟩

def priorityError (p : Int) : UserError :=
  ⟨"Invalid value for --priority: \x7b\x7d", [.i p]⟩

def mutualExclusionError : UserError :=
  ⟨"Cannot use --set-api-key with any other arguments or options.", []⟩

/-- The checks at the tail of parse_args: positional fixup (a lone value
is a description; with none, the url substitutes), the priority range
check, and mutual exclusion of --set-api-key with everything else. -/
def parse_args_check (args : Args) : Except UserError Args :=
  match args.set_api_key with
  | none =>
    match args.event, args.url with
    | none, none => .error missingDescriptionError
    | _, _ =>
      let args1 :=
        match args.event, args.url with
        | none, some u => { args with event := some u }
        | _, _ => args
      let args2 :=
        match args1.description with
        | none => { args1 with description := args1.event, event := none }
        | some _ => args1
      if -2 ≤ args2.priority ∧ args2.priority ≤ 2 then .ok args2
      else .error (priorityError args2.priority)
  | some _ =>
    if args.event ≠ none ∨ args.description ≠ none ∨ args.application ≠ none ∨
        args.url ≠ none ∨ args.priority ≠ 0 ∨ args.api_key ≠ none then
      .error mutualExclusionError
    else .ok args

/-- A raw command line: the positional values in order and each flag's
value when supplied (priority none means the flag was absent and argparse
fills its default 0). -/
structure CmdLine where
  positionals : List String := []
  application : Option String := none
  url : Option String := none
  priority : Option Int := none
  apiKey : Option String := none
  setApiKey : Option String := none
deriving DecidableEq

/-- Outcome of parse_args: a usage error from argparse itself (too many
positionals), a raised UserError, or the validated namespace. -/
inductive ParseResult where
  | usage
  | fail (e : UserError)
  | ok (a : Args)
deriving DecidableEq

/-- Conversion of an optional flag value through api_key_type. -/
def convKey : Option String → Except UserError (Option String)
  | none => .ok none
  | some k => (api_key_type k).map some

/-- Full parse_args model: argparse binding of at most two positionals,
the per-argument conversions, then the post-parse checks. -/
def parse_args (c : CmdLine) : ParseResult :=
  if 2 < c.positionals.length then .usage
  else
    match convKey c.apiKey, convKey c.setApiKey with
    | .error e, _ => .fail e
    | _, .error e => .fail e
    | .ok k, .ok sk =>
      match parse_args_check
          { event := (c.positionals.get? 0).map api_argument_type
            description := (c.positionals.get? 1).map api_argument_type
            application := c.application.map api_argument_type
            url := c.url
            priority := c.priority.getD 0
            api_key := k
            set_api_key := sk } with
      | .error e => .fail e
      | .ok a => .ok a

/-! ### main: request composition and the single side effect -/

/-- A form field value of the POST request. -/
inductive FieldVal where
  | str (s : String)
  | int (n : Int)
deriving DecidableEq

/-- The ordered fields yielded by iter_arguments: apikey and application
always; url and event when not None; description when truthy (Python
falsiness of None and of the empty string); priority when nonzero. -/
def iter_arguments (api_key application : String) (url event description : Option String)
    (priority : Int) : List (String × FieldVal) :=
  [("apikey", FieldVal.str api_key), ("application", FieldVal.str application)]
    ++ (match url with | some u => [("url", FieldVal.str u)] | none => [])
    ++ (match event with | some e => [("event", FieldVal.str e)] | none => [])
    ++ (match description with
        | some d => if d = "" then [] else [("description", FieldVal.str d)]
        | none => [])
    ++ (if priority = 0 then [] else [("priority", FieldVal.int priority)])

/-- The single externally visible operation of one invocation. -/
inductive MainEffect where
  | post (fields : List (String × FieldVal))
  | store (key value : String)
deriving DecidableEq

def missingKeyError : UserError :=
  ⟨"--api-key is mandatory if because default API key has been set.", []⟩

/-- The main function up to its side effect: resolve the key (flag value,
else the stored default, else a UserError), default the application to
user at host, and compose the POST; or store the new default key. -/
def main (a : Args) (storedKey : Option String) (user host : String) :
    Except UserError MainEffect :=
  match a.set_api_key with
  | none =>
    match (match a.api_key with | some k => some k | none => storedKey) with
    | none => .error missingKeyError
    | some k =>
      let application :=
        match a.application with
        | some app => app
        | none => user ++ "@" ++ host
      .ok (.post (iter_arguments k application a.url a.event a.description a.priority))
  | some k => .ok (.store "default-api-key" k)

/-- Result of a whole invocation up to its side effect. -/
inductive RunResult where
  | usage
  | fail (e : UserError)
  | effect (m : MainEffect)
deriving DecidableEq

/-- One invocation: parse_args then main, with the stored default key and
the OS identity supplied as interface inputs. -/
def runProwl (c : CmdLine) (storedKey : Option String) (user host : String) : RunResult :=
  match parse_args c with
  | .usage => .usage
  | .fail e => .fail e
  | .ok a =>
    match main a storedKey user host with
    | .error e => .fail e
    | .ok m => .effect m

/-! ### script_main: error reporting and exit codes -/

/-- Exit status and error-stream lines of the process. -/
structure ProcResult where
  exitCode : Nat
  stderrLines : List String
deriving DecidableEq

/-- One line written by log: the program name, a colon and the formatted
message. -/
def log_line (progname message : String) : String := progname ++ ": " ++ message

/-- script_main's UserError handler: log the template applied to str(e),
then exit with status 1. -/
def userErrorExit (progname : String) (e : UserError) : ProcResult :=
  ⟨1, [log_line progname
        (String.mk (pyFormatChars ("Error: \x7b\x7d").data [EArg.s (strUserError e)]))]⟩

/-- script_main's KeyboardInterrupt handler: log a fixed message, then
exit with status 2. -/
def interruptExit (progname : String) : ProcResult :=
  ⟨2, [log_line progname "Operation interrupted."]⟩

/-- script_main on a completed run: a raised UserError exits 1 with the
logged line, an argparse usage error exits 2 (argparse prints its own
message), success falls off the handler and exits 0. -/
def script_main (progname : String) (r : RunResult) : ProcResult :=
  match r with
  | .usage => ⟨2, []⟩
  | .fail e => userErrorExit progname e
  | .effect _ => ⟨0, []⟩

/-! ### JSON values

The settings file holds one JSON object; the source serializes it with
json.dumps (default separators, ensure_ascii) and reads it back with
json.loads.  The value grammar is modelled with mutual inductives so that
all recursion stays structural and kernel-reducible.  Numbers are
modelled as integers: the store only ever holds strings, and floats are
outside the model. -/

mutual
inductive Json where
  | null
  | bool (b : Bool)
  | int (n : Int)
  | str (s : String)
  | arr (a : JArr)
  | obj (o : JObj)
inductive JArr where
  | nil
  | cons (hd : Json) (tl : JArr)
inductive JObj where
  | nil
  | cons (key : String) (val : Json) (tl : JObj)
end

/-- The lowercase hexadecimal digit character for `d < 16`. -/
def hexDigitChar (d : Nat) : Char :=
  if d < 10 then Char.ofNat (48 + d) else Char.ofNat (87 + d)

/-- Four lowercase hex digits of `n < 65536`, as in a json.dumps escape. -/
def encodeHex4 (n : Nat) : List Char :=
  [hexDigitChar (n / 4096 % 16), hexDigitChar (n / 256 % 16),
   hexDigitChar (n / 16 % 16), hexDigitChar (n % 16)]

/-- json.dumps escaping of one character with ensure_ascii: quote,
backslash and the five short escapes; other characters outside the
printable ASCII range become one universal escape, or a surrogate pair of
escapes above the basic plane; printable ASCII stays itself. -/
def escapeChar (c : Char) : List Char :=
  if c = '"' then ['\\', '"']
  else if c = '\\' then ['\\', '\\']
  else if c = '\x08' then ['\\', 'b']
  else if c = '\x0c' then ['\\', 'f']
  else if c = '\n' then ['\\', 'n']
  else if c = '\r' then ['\\', 'r']
  else if c = '\t' then ['\\', 't']
  else if c.toNat < 32 ∨ 126 < c.toNat then
    if c.toNat < 65536 then '\\' :: 'u' :: encodeHex4 c.toNat
    else
      ('\\' :: 'u' :: encodeHex4 (55296 + (c.toNat - 65536) / 1024))
        ++ ('\\' :: 'u' :: encodeHex4 (56320 + (c.toNat - 65536) % 1024))
  else [c]

/-- json.dumps escaping of a character sequence. -/
def escapeChars : List Char → List Char
  | [] => []
  | c :: cs => escapeChar c ++ escapeChars cs

/-- json.dumps of a string: escaped content in double quotes. -/
def dumpsString (cs : List Char) : List Char := '"' :: (escapeChars cs ++ ['"'])

mutual
/-- json.dumps with the default separators: members joined by a comma and
a space, keys separated from values by a colon and a space. -/
def dumpsJson : Json → List Char
  | .null => "null".data
  | .bool true => "true".data
  | .bool false => "false".data
  | .int n => intChars n
  | .str s => dumpsString s.data
  | .arr .nil => ['[', ']']
  | .arr (.cons h t) => '[' :: (dumpsJson h ++ dumpsArrRest t ++ [']'])
  | .obj .nil => ['\x7b', '\x7d']
  | .obj (.cons k v t) =>
    '\x7b' :: (dumpsString k.data ++ ':' :: ' ' :: dumpsJson v ++ dumpsObjRest t ++ ['\x7d'])
/-- The items of an array after the first, each preceded by the
separator. -/
def dumpsArrRest : JArr → List Char
  | .nil => []
  | .cons h t => ',' :: ' ' :: (dumpsJson h ++ dumpsArrRest t)
/-- The members of an object after the first, each preceded by the
separator. -/
def dumpsObjRest : JObj → List Char
  | .nil => []
  | .cons k v t => ',' :: ' ' :: (dumpsString k.data ++ ':' :: ' ' :: dumpsJson v ++ dumpsObjRest t)
end

/-- json.dumps of a value, as the string written to the settings file. -/
def jsonDumps (v : Json) : String := String.mk (dumpsJson v)

/-! JSON parsing, modelling json.loads on the fragment the model covers
(no floats; a universal escape naming a lone surrogate is rejected
because the model's characters are Unicode scalar values). -/

/-- JSON insignificant whitespace. -/
def isWsChar (c : Char) : Bool := c = ' ' || c = '\t' || c = '\n' || c = '\r'

/-- Drop leading JSON whitespace. -/
def skipWs : List Char → List Char
  | [] => []
  | c :: cs => if isWsChar c then skipWs cs else c :: cs

/-- Value of one hex digit, either case. -/
def hexVal (c : Char) : Option Nat :=
  if 48 ≤ c.toNat ∧ c.toNat ≤ 57 then some (c.toNat - 48)
  else if 97 ≤ c.toNat ∧ c.toNat ≤ 102 then some (c.toNat - 87)
  else if 65 ≤ c.toNat ∧ c.toNat ≤ 70 then some (c.toNat - 55)
  else none

/-- Prepend a decoded character to a string-body parse result. -/
def consDecoded (c : Char) : Option (List Char × List Char) → Option (List Char × List Char)
  | some (s, r) => some (c :: s, r)
  | none => none

mutual
/-- Parse the body of a JSON string after the opening quote, returning
the decoded characters and the input following the closing quote. -/
def parseStringBody : List Char → Option (List Char × List Char)
  | [] => none
  | c :: cs =>
    if c = '"' then some ([], cs)
    else if c = '\\' then parseEscape cs
    else if c.toNat < 32 then none
    else consDecoded c (parseStringBody cs)
/-- Parse what follows a backslash inside a JSON string. -/
def parseEscape : List Char → Option (List Char × List Char)
  | [] => none
  | e :: cs2 =>
    if e = '"' ∨ e = '\\' ∨ e = '/' then consDecoded e (parseStringBody cs2)
    else if e = 'b' then consDecoded '\x08' (parseStringBody cs2)
    else if e = 'f' then consDecoded '\x0c' (parseStringBody cs2)
    else if e = 'n' then consDecoded '\n' (parseStringBody cs2)
    else if e = 'r' then consDecoded '\r' (parseStringBody cs2)
    else if e = 't' then consDecoded '\t' (parseStringBody cs2)
    else if e = 'u' then parseUnicodeEscape cs2
    else none
/-- Parse the four hex digits of a universal escape and, for a high
surrogate, the paired low surrogate escape. -/
def parseUnicodeEscape : List Char → Option (List Char × List Char)
  | a :: b :: c2 :: d :: cs3 =>
    match hexVal a, hexVal b, hexVal c2, hexVal d with
    | some ha, some hb, some hc, some hd =>
      let n := ha * 4096 + hb * 256 + hc * 16 + hd
      if 55296 ≤ n ∧ n ≤ 56319 then parseLowSurrogate n cs3
      else if 56320 ≤ n ∧ n ≤ 57343 then none
      else consDecoded (Char.ofNat n) (parseStringBody cs3)
    | _, _, _, _ => none
  | _ => none
/-- Parse the low-surrogate escape following a high surrogate `n` and
combine the pair into one character. -/
def parseLowSurrogate (n : Nat) : List Char → Option (List Char × List Char)
  | x :: y :: e2 :: f2 :: g2 :: h2 :: cs4 =>
    if x = '\\' ∧ y = 'u' then
      match hexVal e2, hexVal f2, hexVal g2, hexVal h2 with
      | some he, some hf, some hg, some hh =>
        let m := he * 4096 + hf * 256 + hg * 16 + hh
        if 56320 ≤ m ∧ m ≤ 57343 then
          consDecoded (Char.ofNat (65536 + (n - 55296) * 1024 + (m - 56320)))
            (parseStringBody cs4)
        else none
      | _, _, _, _ => none
    else none
  | _ => none
end

/-- Split the maximal run of decimal digits off the front. -/
def takeDigits : List Char → List Char × List Char
  | [] => ([], [])
  | c :: cs =>
    if 48 ≤ c.toNat ∧ c.toNat ≤ 57 then
      match takeDigits cs with
      | (ds, r) => (c :: ds, r)
    else ([], c :: cs)

/-- Numeric value of a digit run. -/
def digitsVal (ds : List Char) : Nat := ds.foldl (fun a c => a * 10 + (c.toNat - 48)) 0

/-- Whether the input continues with a fraction or an exponent, which
would make the number a Python float. -/
def floatFollows : List Char → Bool
  | [] => false
  | c :: _ => c == '.' || c == 'e' || c == 'E'

/-- Parse the digits of a JSON number after an optional minus sign.  A
fraction or exponent would denote a Python float, which is outside the
model, so it is not accepted. -/
def parseIntDigits (neg : Bool) (cs : List Char) : Option (Int × List Char) :=
  let p := takeDigits cs
  if p.1 = [] then none
  else if floatFollows p.2 then none
  else some (if neg then -(digitsVal p.1 : Int) else (digitsVal p.1 : Int), p.2)

mutual
/-- Parse one JSON value, with fuel bounding the nesting.  Returns the
value and the unconsumed input. -/
def parseValue : Nat → List Char → Option (Json × List Char)
  | 0, _ => none
  | fuel + 1, cs =>
    match skipWs cs with
    | [] => none
    | c :: cs' =>
      if c = 'n' then
        match cs' with
        | 'u' :: 'l' :: 'l' :: rest => some (.null, rest)
        | _ => none
      else if c = 't' then
        match cs' with
        | 'r' :: 'u' :: 'e' :: rest => some (.bool true, rest)
        | _ => none
      else if c = 'f' then
        match cs' with
        | 'a' :: 'l' :: 's' :: 'e' :: rest => some (.bool false, rest)
        | _ => none
      else if c = '"' then
        match parseStringBody cs' with
        | some (s, rest) => some (.str (String.mk s), rest)
        | none => none
      else if c = '-' then
        match parseIntDigits true cs' with
        | some (n, rest) => some (.int n, rest)
        | none => none
      else if 48 ≤ c.toNat ∧ c.toNat ≤ 57 then
        match parseIntDigits false (c :: cs') with
        | some (n, rest) => some (.int n, rest)
        | none => none
      else if c = '[' then
        match skipWs cs' with
        | [] => none
        | d :: rest =>
          if d = ']' then some (.arr .nil, rest)
          else
            match parseItems fuel (d :: rest) with
            | some (a, rest2) => some (.arr a, rest2)
            | none => none
      else if c = '\x7b' then
        match skipWs cs' with
        | [] => none
        | d :: rest =>
          if d = '\x7d' then some (.obj .nil, rest)
          else
            match parseMembers fuel (d :: rest) with
            | some (o, rest2) => some (.obj o, rest2)
            | none => none
      else none
/-- Parse the comma-separated items of a nonempty array, consuming the
closing bracket. -/
def parseItems : Nat → List Char → Option (JArr × List Char)
  | 0, _ => none
  | fuel + 1, cs =>
    match parseValue fuel cs with
    | none => none
    | some (v, rest) =>
      match skipWs rest with
      | [] => none
      | c :: rest2 =>
        if c = ',' then
          match parseItems fuel (skipWs rest2) with
          | some (a, rest3) => some (.cons v a, rest3)
          | none => none
        else if c = ']' then some (.cons v .nil, rest2)
        else none
/-- Parse the comma-separated members of a nonempty object, consuming the
closing brace. -/
def parseMembers : Nat → List Char → Option (JObj × List Char)
  | 0, _ => none
  | fuel + 1, cs =>
    match cs with
    | [] => none
    | c :: cs' =>
      if c = '"' then
        match parseStringBody cs' with
        | none => none
        | some (k, rest) =>
          match skipWs rest with
          | [] => none
          | c2 :: rest2 =>
            if c2 = ':' then
              match parseValue fuel rest2 with
              | none => none
              | some (v, rest3) =>
                match skipWs rest3 with
                | [] => none
                | c3 :: rest4 =>
                  if c3 = ',' then
                    match parseMembers fuel (skipWs rest4) with
                    | some (o, rest5) => some (.cons (String.mk k) v o, rest5)
                    | none => none
                  else if c3 = '\x7d' then some (.cons (String.mk k) v .nil, rest4)
                  else none
            else none
      else none
end

/-- Model of json.loads: parse one value and require only whitespace
after it.  The fuel is one more than the input length, which bounds any
possible nesting. -/
def jsonLoads (s : String) : Option Json :=
  match parseValue (s.data.length + 1) s.data with
  | some (v, rest) => if skipWs rest = [] then some v else none
  | none => none

/-! ### The Settings store -/

/-- Lookup in the mapping, as dict.get with the default None. -/
def objGet (o : JObj) (k : String) : Option Json :=
  match o with
  | .nil => none
  | .cons k2 v t => if k2 = k then some v else objGet t k

/-- Update in the mapping, as dict assignment: replace the binding in
place when the key is present, append otherwise. -/
def objSet (o : JObj) (k : String) (v : Json) : JObj :=
  match o with
  | .nil => .cons k v .nil
  | .cons k2 v2 t => if k2 = k then .cons k2 v t else .cons k2 v2 (objSet t k v)

/-- A Settings instance's state: the settings file's content on disk (none
when the file does not exist) and the lazily loaded mapping. -/
structure SettingsState where
  fileContent : Option String
  cache : Option JObj

/-- The mapping _load_values establishes: the cache if already loaded, an
empty mapping for a missing file, the parsed object otherwise; none
models the fatal error on an unreadable or non-object file. -/
def loadValues (s : SettingsState) : Option JObj :=
  match s.cache with
  | some m => some m
  | none =>
    match s.fileContent with
    | none => some .nil
    | some text =>
      match jsonLoads text with
      | some (.obj m) => some m
      | _ => none

/-- Settings.get with the default None. -/
def settings_get (s : SettingsState) (k : String) : Option (Option Json) :=
  (loadValues s).map (fun m => objGet m k)

/-- Settings.set: load, update the mapping, serialize the whole mapping
back to the file. -/
def settings_set (s : SettingsState) (k : String) (v : Json) : Option SettingsState :=
  (loadValues s).map (fun m =>
    let m2 := objSet m k v
    { fileContent := some (jsonDumps (.obj m2)), cache := some m2 })

/-! ### write_file and the file system

write_file ensures the parent directory exists, writes the data to a
temporary sibling file named by appending a tilde, and renames it onto
the target.  The model exposes every externally observable intermediate
state, including a temp file holding an arbitrary partial write. -/

/-- A file system: file contents by path, plus the set of directories. -/
structure FS where
  files : String → Option String
  dirs : List String

/-- Point update of the file map. -/
def updateFile (f : String → Option String) (p : String) (v : Option String) :
    String → Option String :=
  fun q => if q = p then v else f q

/-- os.path.dirname: everything up to the last slash, with trailing
slashes stripped unless the result is nothing but slashes. -/
def dirname (p : String) : String :=
  let pre := (p.data.reverse.dropWhile (fun c => c != '/')).reverse
  if pre.all (fun c => c == '/') then String.mk pre
  else String.mk (pre.reverse.dropWhile (fun c => c == '/')).reverse

/-- os.makedirs: create the directory and its missing ancestors.  The
fuel is bounded by the path length, which the parent chain shrinks. -/
def makedirs (fs : FS) (d : String) : Nat → FS
  | 0 => fs
  | fuel + 1 =>
    if d ∈ fs.dirs ∨ d = "" then fs
    else
      let fs2 := makedirs fs (dirname d) fuel
      { fs2 with dirs := d :: fs2.dirs }

/-- The directory-existence check and conditional makedirs at the top of
write_file. -/
def ensureDir (fs : FS) (path : String) : FS :=
  let d := dirname path
  if d ∈ fs.dirs then fs else makedirs fs d (d.length + 1)

/-- The externally observable stages of one write_file call: before
anything, after the directory check, after the temp file holds some
prefix of the data (an interrupted write leaves exactly such a state),
and after the rename. -/
inductive WriteStage where
  | start
  | dirEnsured
  | tempWritten (written : String)
  | renamed

/-- The file system as observed at each stage of
`write_file path data`. -/
def write_file_stage (fs : FS) (path data : String) : WriteStage → FS
  | .start => fs
  | .dirEnsured => ensureDir fs path
  | .tempWritten w =>
    let fs2 := ensureDir fs path
    { fs2 with files := updateFile fs2.files (path ++ "~") (some w) }
  | .renamed =>
    let fs2 := ensureDir fs path
    let fs3 := { fs2 with files := updateFile fs2.files (path ++ "~") (some data) }
    { fs3 with
      files := updateFile (updateFile fs3.files (path ++ "~") none) path (some data) }

/-! ### Measures and side conditions used by the proofs -/

mutual
/-- Nesting-sensitive size of a value, bounding the parser fuel it
needs. -/
def sizeJson : Json → Nat
  | .null => 1
  | .bool _ => 1
  | .int _ => 1
  | .str _ => 1
  | .arr a => sizeArr a + 1
  | .obj o => sizeObj o + 1
/-- Size of array items. -/
def sizeArr : JArr → Nat
  | .nil => 0
  | .cons h t => sizeJson h + sizeArr t + 1
/-- Size of object members. -/
def sizeObj : JObj → Nat
  | .nil => 0
  | .cons _ v t => sizeJson v + sizeObj t + 1
end

/-- The input following a serialized number may not begin with a digit,
a decimal point or an exponent letter, so that number parsing stops
exactly at the boundary. -/
def numBoundary (cs : List Char) : Prop :=
  ∀ c, cs.head? = some c →
    ¬(48 ≤ c.toNat ∧ c.toNat ≤ 57) ∧ c ≠ '.' ∧ c ≠ 'e' ∧ c ≠ 'E'

/-! ### Helper lemmas: characters and decimal digits -/

theorem char_ne_of_toNat_ne {c d : Char} (h : c.toNat ≠ d.toNat) : c ≠ d :=
  fun e => h (by rw [e])

theorem char_eq_of_toNat_eq {c d : Char} (h : c.toNat = d.toNat) : c = d := by
  rw [← Char.ofNat_toNat c, h, Char.ofNat_toNat]

theorem char_valid_toNat (c : Char) :
    c.toNat < 55296 ∨ (57343 < c.toNat ∧ c.toNat < 1114112) := c.valid

theorem digitChar_toNat : ∀ d, d < 10 → (digitChar d).toNat = 48 + d := by decide

theorem digitsVal_append (l : List Char) (c : Char) :
    digitsVal (l ++ [c]) = digitsVal l * 10 + (c.toNat - 48) := by
  simp [digitsVal, List.foldl_append]

theorem natToCharsAux_spec :
    ∀ fuel n, n < 10 ^ (fuel + 1) →
      natToCharsAux (fuel + 1) n ≠ [] ∧
      (∀ c ∈ natToCharsAux (fuel + 1) n, 48 ≤ c.toNat ∧ c.toNat ≤ 57) ∧
      digitsVal (natToCharsAux (fuel + 1) n) = n := by
  intro fuel
  induction fuel with
  | zero =>
    intro n hn
    rw [pow_one] at hn
    rw [natToCharsAux, if_pos hn]
    refine ⟨by simp, ?_, ?_⟩
    · intro c hc
      rw [List.mem_singleton] at hc
      subst hc
      rw [digitChar_toNat n hn]
      omega
    · simp [digitsVal, digitChar_toNat n hn]
  | succ f ih =>
    intro n hn
    by_cases h10 : n < 10
    · rw [natToCharsAux, if_pos h10]
      refine ⟨by simp, ?_, ?_⟩
      · intro c hc
        rw [List.mem_singleton] at hc
        subst hc
        rw [digitChar_toNat n h10]
        omega
      · simp [digitsVal, digitChar_toNat n h10]
    · rw [natToCharsAux, if_neg h10]
      have hdiv : n / 10 < 10 ^ (f + 1) := by
        rw [Nat.div_lt_iff_lt_mul (by omega)]
        calc n < 10 ^ (f + 2) := hn
        _ = 10 ^ (f + 1) * 10 := by ring
      obtain ⟨ihne, ihall, ihval⟩ := ih (n / 10) hdiv
      have hm : n % 10 < 10 := Nat.mod_lt n (by omega)
      refine ⟨by simp, ?_, ?_⟩
      · intro c hc
        rcases List.mem_append.mp hc with h | h
        · exact ihall c h
        · rw [List.mem_singleton] at h
          subst h
          rw [digitChar_toNat _ hm]
          omega
      · rw [digitsVal_append, ihval, digitChar_toNat _ hm]
        omega

theorem natToChars_spec (n : Nat) :
    natToChars n ≠ [] ∧
    (∀ c ∈ natToChars n, 48 ≤ c.toNat ∧ c.toNat ≤ 57) ∧
    digitsVal (natToChars n) = n := by
  have hlt : n < 10 ^ (n + 1) :=
    lt_of_lt_of_le (Nat.lt_pow_self (by omega) n)
      (Nat.pow_le_pow_right (by omega) (Nat.le_succ n))
  exact natToCharsAux_spec n n hlt

theorem takeDigits_append (ds rest : List Char)
    (hds : ∀ c ∈ ds, 48 ≤ c.toNat ∧ c.toNat ≤ 57)
    (hrest : ∀ c, rest.head? = some c → ¬(48 ≤ c.toNat ∧ c.toNat ≤ 57)) :
    takeDigits (ds ++ rest) = (ds, rest) := by
  induction ds with
  | nil =>
    cases rest with
    | nil => rfl
    | cons c cs =>
      rw [List.nil_append, takeDigits, if_neg (hrest c rfl)]
  | cons c cs ih =>
    have hd := hds c (List.mem_cons_self c cs)
    rw [List.cons_append, takeDigits, if_pos hd,
      ih (fun x hx => hds x (List.mem_cons_of_mem c hx))]

theorem floatFollows_of_numBoundary (rest : List Char) (h : numBoundary rest) :
    floatFollows rest = false := by
  cases rest with
  | nil => rfl
  | cons c cs =>
    obtain ⟨-, h1, h2, h3⟩ := h c rfl
    simp [floatFollows, h1, h2, h3]

theorem parseIntDigits_natToChars (neg : Bool) (n : Nat) (rest : List Char)
    (hrest : numBoundary rest) :
    parseIntDigits neg (natToChars n ++ rest) =
      some (if neg then -(n : Int) else (n : Int), rest) := by
  obtain ⟨hne, hall, hval⟩ := natToChars_spec n
  rw [parseIntDigits]
  rw [takeDigits_append _ _ hall (fun c hc => (hrest c hc).1)]
  simp only [if_neg hne, floatFollows_of_numBoundary rest hrest, if_neg Bool.false_ne_true,
    hval]

/-! ### Helper lemmas: whitespace and hex digits -/

theorem skipWs_cons_of_not_ws {c : Char} (cs : List Char) (h : isWsChar c = false) :
    skipWs (c :: cs) = c :: cs := by
  rw [skipWs, h]
  rfl

theorem skipWs_cons_of_ws {c : Char} (cs : List Char) (h : isWsChar c = true) :
    skipWs (c :: cs) = skipWs cs := by
  rw [skipWs, h]
  rfl

theorem isWsChar_false_of_digit {c : Char} (h : 48 ≤ c.toNat ∧ c.toNat ≤ 57) :
    isWsChar c = false := by
  have h32 : c ≠ ' ' := fun e => by rw [e] at h; exact absurd h (by decide)
  have h9 : c ≠ '\t' := fun e => by rw [e] at h; exact absurd h (by decide)
  have h10 : c ≠ '\n' := fun e => by rw [e] at h; exact absurd h (by decide)
  have h13 : c ≠ '\r' := fun e => by rw [e] at h; exact absurd h (by decide)
  simp [isWsChar, h32, h9, h10, h13]

theorem hexVal_hexDigitChar : ∀ d, d < 16 → hexVal (hexDigitChar d) = some d := by decide

/-! ### Helper lemmas: string escape round trip -/

theorem parseStringBody_escape (cs rest : List Char) :
    parseStringBody (escapeChars cs ++ '"' :: rest) = some (cs, rest) := by
  induction cs with
  | nil =>
    rw [escapeChars, List.nil_append, parseStringBody, if_pos rfl]
  | cons c cs ih =>
    rw [escapeChars, List.append_assoc]
    by_cases h1 : c = '"'
    · subst h1
      rw [show escapeChar '"' = ['\\', '"'] from rfl]
      simp only [List.cons_append, List.nil_append]
      rw [parseStringBody, if_neg (by decide), if_pos rfl, parseEscape,
        if_pos (Or.inl rfl), ih, consDecoded]
    by_cases h2 : c = '\\'
    · subst h2
      rw [show escapeChar '\\' = ['\\', '\\'] from rfl]
      simp only [List.cons_append, List.nil_append]
      rw [parseStringBody, if_neg (by decide), if_pos rfl, parseEscape,
        if_pos (Or.inr (Or.inl rfl)), ih, consDecoded]
    by_cases h3 : c = '\x08'
    · subst h3
      rw [show escapeChar '\x08' = ['\\', 'b'] from rfl]
      simp only [List.cons_append, List.nil_append]
      rw [parseStringBody, if_neg (by decide), if_pos rfl, parseEscape,
        if_neg (by decide), if_pos rfl, ih, consDecoded]
    by_cases h4 : c = '\x0c'
    · subst h4
      rw [show escapeChar '\x0c' = ['\\', 'f'] from rfl]
      simp only [List.cons_append, List.nil_append]
      rw [parseStringBody, if_neg (by decide), if_pos rfl, parseEscape,
        if_neg (by decide), if_neg (by decide), if_pos rfl, ih, consDecoded]
    by_cases h5 : c = '\n'
    · subst h5
      rw [show escapeChar '\n' = ['\\', 'n'] from rfl]
      simp only [List.cons_append, List.nil_append]
      rw [parseStringBody, if_neg (by decide), if_pos rfl, parseEscape,
        if_neg (by decide), if_neg (by decide), if_neg (by decide), if_pos rfl, ih,
        consDecoded]
    by_cases h6 : c = '\r'
    · subst h6
      rw [show escapeChar '\r' = ['\\', 'r'] from rfl]
      simp only [List.cons_append, List.nil_append]
      rw [parseStringBody, if_neg (by decide), if_pos rfl, parseEscape,
        if_neg (by decide), if_neg (by decide), if_neg (by decide), if_neg (by decide),
        if_pos rfl, ih, consDecoded]
    by_cases h7 : c = '\t'
    · subst h7
      rw [show escapeChar '\t' = ['\\', 't'] from rfl]
      simp only [List.cons_append, List.nil_append]
      rw [parseStringBody, if_neg (by decide), if_pos rfl, parseEscape,
        if_neg (by decide), if_neg (by decide), if_neg (by decide), if_neg (by decide),
        if_neg (by decide), if_pos rfl, ih, consDecoded]
    rw [escapeChar, if_neg h1, if_neg h2, if_neg h3, if_neg h4, if_neg h5, if_neg h6,
      if_neg h7]
    by_cases h8 : c.toNat < 32 ∨ 126 < c.toNat
    · rw [if_pos h8]
      have hvalid := char_valid_toNat c
      by_cases h9 : c.toNat < 65536
      · rw [if_pos h9]
        simp only [encodeHex4, List.cons_append, List.nil_append]
        rw [parseStringBody, if_neg (by decide), if_pos rfl, parseEscape,
          if_neg (by decide), if_neg (by decide), if_neg (by decide), if_neg (by decide),
          if_neg (by decide), if_neg (by decide), if_pos rfl, parseUnicodeEscape]
        rw [hexVal_hexDigitChar _ (Nat.mod_lt _ (by omega)),
          hexVal_hexDigitChar _ (Nat.mod_lt _ (by omega)),
          hexVal_hexDigitChar _ (Nat.mod_lt _ (by omega)),
          hexVal_hexDigitChar _ (Nat.mod_lt _ (by omega))]
        dsimp only
        rw [if_neg (by omega), if_neg (by omega), ih, consDecoded]
        have hsum : c.toNat / 4096 % 16 * 4096 + c.toNat / 256 % 16 * 256 +
            c.toNat / 16 % 16 * 16 + c.toNat % 16 = c.toNat := by omega
        rw [hsum, Char.ofNat_toNat]
      · rw [if_neg h9]
        have hlt : c.toNat < 1114112 := by omega
        simp only [encodeHex4, List.cons_append, List.nil_append, List.append_assoc]
        rw [parseStringBody, if_neg (by decide), if_pos rfl, parseEscape,
          if_neg (by decide), if_neg (by decide), if_neg (by decide), if_neg (by decide),
          if_neg (by decide), if_neg (by decide), if_pos rfl, parseUnicodeEscape]
        rw [hexVal_hexDigitChar _ (Nat.mod_lt _ (by omega)),
          hexVal_hexDigitChar _ (Nat.mod_lt _ (by omega)),
          hexVal_hexDigitChar _ (Nat.mod_lt _ (by omega)),
          hexVal_hexDigitChar _ (Nat.mod_lt _ (by omega))]
        dsimp only
        rw [if_pos (by omega), parseLowSurrogate, if_pos (by decide)]
        rw [hexVal_hexDigitChar _ (Nat.mod_lt _ (by omega)),
          hexVal_hexDigitChar _ (Nat.mod_lt _ (by omega)),
          hexVal_hexDigitChar _ (Nat.mod_lt _ (by omega)),
          hexVal_hexDigitChar _ (Nat.mod_lt _ (by omega))]
        dsimp only
        rw [if_pos (by omega), ih, consDecoded]
        have hchar : 65536 +
            ((55296 + (c.toNat - 65536) / 1024) / 4096 % 16 * 4096 +
              (55296 + (c.toNat - 65536) / 1024) / 256 % 16 * 256 +
              (55296 + (c.toNat - 65536) / 1024) / 16 % 16 * 16 +
              (55296 + (c.toNat - 65536) / 1024) % 16 - 55296) * 1024 +
            ((56320 + (c.toNat - 65536) % 1024) / 4096 % 16 * 4096 +
              (56320 + (c.toNat - 65536) % 1024) / 256 % 16 * 256 +
              (56320 + (c.toNat - 65536) % 1024) / 16 % 16 * 16 +
              (56320 + (c.toNat - 65536) % 1024) % 16 - 56320) = c.toNat := by omega
        rw [hchar, Char.ofNat_toNat]
    · rw [if_neg h8]
      simp only [List.cons_append, List.nil_append]
      rw [parseStringBody, if_neg h1, if_neg h2, if_neg (by omega), ih, consDecoded]

/-! ### Helper lemmas: dispatch of the value parser -/

theorem sizeJson_pos (v : Json) : 1 ≤ sizeJson v := by
  cases v <;> rw [sizeJson] <;> omega

theorem string_mk_data (s : String) : String.mk s.data = s := rfl

theorem dumpsJson_head_spec (v : Json) :
    ∃ c t, dumpsJson v = c :: t ∧ isWsChar c = false ∧ c ≠ ']' ∧ c ≠ '\x7d' := by
  cases v with
  | null => exact ⟨'n', _, rfl, by decide, by decide, by decide⟩
  | bool b =>
    cases b with
    | false => exact ⟨'f', _, rfl, by decide, by decide, by decide⟩
    | true => exact ⟨'t', _, rfl, by decide, by decide, by decide⟩
  | int n =>
    rw [dumpsJson, intChars]
    by_cases hn : n < 0
    · rw [if_pos hn]
      exact ⟨'-', _, rfl, by decide, by decide, by decide⟩
    · rw [if_neg hn]
      obtain ⟨hne, hall, -⟩ := natToChars_spec n.natAbs
      cases h : natToChars n.natAbs with
      | nil => exact absurd h hne
      | cons d ds =>
        have hd := hall d (h ▸ List.mem_cons_self d ds)
        exact ⟨d, ds, rfl, isWsChar_false_of_digit hd,
          fun e => by rw [e] at hd; exact absurd hd (by decide),
          fun e => by rw [e] at hd; exact absurd hd (by decide)⟩
  | str s => exact ⟨'"', _, rfl, by decide, by decide, by decide⟩
  | arr a =>
    cases a with
    | nil => exact ⟨'[', _, rfl, by decide, by decide, by decide⟩
    | cons h t => exact ⟨'[', _, rfl, by decide, by decide, by decide⟩
  | obj o =>
    cases o with
    | nil => exact ⟨'\x7b', _, rfl, by decide, by decide, by decide⟩
    | cons k v t => exact ⟨'\x7b', _, rfl, by decide, by decide, by decide⟩

theorem skipWs_dumps_append (v : Json) (Y : List Char) :
    skipWs (dumpsJson v ++ Y) = dumpsJson v ++ Y := by
  obtain ⟨c, t, he, hws, -, -⟩ := dumpsJson_head_spec v
  rw [he, List.cons_append, skipWs_cons_of_not_ws _ hws]

theorem parseValue_ws_drop (fuel : Nat) {c : Char} (cs : List Char) (h : isWsChar c = true) :
    parseValue fuel (c :: cs) = parseValue fuel cs := by
  cases fuel with
  | zero => rfl
  | succ fuel =>
    simp only [parseValue]
    rw [skipWs_cons_of_ws _ h]

theorem numBoundary_nil : numBoundary [] := fun _ hd => nomatch hd

theorem numBoundary_cons {c : Char} (X : List Char)
    (hd : ¬(48 ≤ c.toNat ∧ c.toNat ≤ 57)) (h1 : c ≠ '.') (h2 : c ≠ 'e') (h3 : c ≠ 'E') :
    numBoundary (c :: X) := by
  intro d hdd
  have : c = d := by
    simpa [List.head?] using hdd
  subst this
  exact ⟨hd, h1, h2, h3⟩

theorem numBoundary_arrRest (t : JArr) (rest : List Char) :
    numBoundary (dumpsArrRest t ++ ']' :: rest) := by
  cases t with
  | nil =>
    rw [dumpsArrRest, List.nil_append]
    exact numBoundary_cons _ (by decide) (by decide) (by decide) (by decide)
  | cons h2 t2 =>
    rw [dumpsArrRest, List.cons_append, List.cons_append]
    exact numBoundary_cons _ (by decide) (by decide) (by decide) (by decide)

theorem numBoundary_objRest (t : JObj) (rest : List Char) :
    numBoundary (dumpsObjRest t ++ '\x7d' :: rest) := by
  cases t with
  | nil =>
    rw [dumpsObjRest, List.nil_append]
    exact numBoundary_cons _ (by decide) (by decide) (by decide) (by decide)
  | cons k2 v2 t2 =>
    rw [dumpsObjRest, List.cons_append, List.cons_append]
    exact numBoundary_cons _ (by decide) (by decide) (by decide) (by decide)

theorem digit_ne {d : Char} (hd : 48 ≤ d.toNat ∧ d.toNat ≤ 57) {c : Char}
    (hc : c.toNat < 48 ∨ 57 < c.toNat) : d ≠ c :=
  char_ne_of_toNat_ne (by omega)

/-! ### The parser inverts the serializer -/

theorem parse_dumps_aux (fuel : Nat) :
    (∀ v rest, sizeJson v ≤ fuel → numBoundary rest →
      parseValue fuel (dumpsJson v ++ rest) = some (v, rest)) ∧
    (∀ h t rest, sizeJson h + sizeArr t + 1 ≤ fuel →
      parseItems fuel (dumpsJson h ++ (dumpsArrRest t ++ ']' :: rest)) =
        some (.cons h t, rest)) ∧
    (∀ k v t rest, sizeJson v + sizeObj t + 1 ≤ fuel →
      parseMembers fuel
          ('"' :: (escapeChars k.data ++
            '"' :: (':' :: ' ' :: (dumpsJson v ++ (dumpsObjRest t ++ '\x7d' :: rest))))) =
        some (.cons k v t, rest)) := by
  induction fuel with
  | zero =>
    refine ⟨?_, ?_, ?_⟩
    · intro v rest hsz _
      exact absurd hsz (by have := sizeJson_pos v; omega)
    · intro h t rest hsz
      exact absurd hsz (by omega)
    · intro k v t rest hsz
      exact absurd hsz (by omega)
  | succ fuel ih =>
    obtain ⟨ihV, ihI, ihM⟩ := ih
    refine ⟨?_, ?_, ?_⟩
    · intro v rest hsz hrest
      cases v with
      | null => rfl
      | bool b => cases b with
        | false => rfl
        | true => rfl
      | int n =>
        rw [dumpsJson, intChars]
        by_cases hn : n < 0
        · rw [if_pos hn, List.cons_append]
          rw [show parseValue (fuel + 1) ('-' :: (natToChars n.natAbs ++ rest)) =
                (match parseIntDigits true (natToChars n.natAbs ++ rest) with
                 | some (m, r) => some (Json.int m, r)
                 | none => none) from rfl]
          rw [parseIntDigits_natToChars true _ _ hrest]
          dsimp only
          rw [if_pos rfl]
          have hv : -(n.natAbs : Int) = n := by omega
          rw [hv]
        · rw [if_neg hn]
          obtain ⟨hne, hall, -⟩ := natToChars_spec n.natAbs
          cases h : natToChars n.natAbs with
          | nil => exact absurd h hne
          | cons d ds =>
            have hd := hall d (h ▸ List.mem_cons_self d ds)
            rw [List.cons_append, parseValue,
              skipWs_cons_of_not_ws _ (isWsChar_false_of_digit hd)]
            dsimp only
            rw [if_neg (digit_ne hd (by decide)), if_neg (digit_ne hd (by decide)),
              if_neg (digit_ne hd (by decide)), if_neg (digit_ne hd (by decide)),
              if_neg (digit_ne hd (by decide)), if_pos hd]
            rw [← List.cons_append, ← h, parseIntDigits_natToChars false _ _ hrest]
            dsimp only
            rw [if_neg Bool.false_ne_true]
            have hv : (n.natAbs : Int) = n := by omega
            rw [hv]
      | str s =>
        rw [dumpsJson, dumpsString]
        simp only [List.cons_append, List.append_assoc, List.singleton_append,
          List.nil_append]
        rw [show parseValue (fuel + 1)
              ('"' :: (escapeChars s.data ++ '"' :: rest)) =
                (match parseStringBody (escapeChars s.data ++ '"' :: rest) with
                 | some (t, r) => some (Json.str (String.mk t), r)
                 | none => none) from rfl]
        rw [parseStringBody_escape]
      | arr a =>
        cases a with
        | nil => rfl
        | cons h t =>
          rw [dumpsJson]
          simp only [List.cons_append, List.append_assoc, List.singleton_append,
            List.nil_append]
          rw [show parseValue (fuel + 1)
                ('[' :: (dumpsJson h ++ (dumpsArrRest t ++ ']' :: rest))) =
                  (match skipWs (dumpsJson h ++ (dumpsArrRest t ++ ']' :: rest)) with
                   | [] => none
                   | d :: rest2 =>
                     if d = ']' then some (Json.arr JArr.nil, rest2)
                     else
                       match parseItems fuel (d :: rest2) with
                       | some (a, rest3) => some (Json.arr a, rest3)
                       | none => none) from rfl]
          rw [skipWs_dumps_append]
          obtain ⟨c0, t0, he, hws, hnb, -⟩ := dumpsJson_head_spec h
          rw [he, List.cons_append]
          dsimp only
          rw [if_neg hnb, ← List.cons_append, ← he,
            ihI h t rest (by rw [sizeJson, sizeArr] at hsz; omega)]
      | obj o =>
        cases o with
        | nil => rfl
        | cons k v t =>
          rw [dumpsJson, dumpsString]
          simp only [List.cons_append, List.append_assoc, List.singleton_append,
            List.nil_append]
          rw [show parseValue (fuel + 1)
                ('\x7b' :: ('"' :: (escapeChars k.data ++
                  '"' :: (':' :: ' ' :: (dumpsJson v ++
                    (dumpsObjRest t ++ '\x7d' :: rest)))))) =
                  (match parseMembers fuel ('"' :: (escapeChars k.data ++
                      '"' :: (':' :: ' ' :: (dumpsJson v ++
                        (dumpsObjRest t ++ '\x7d' :: rest))))) with
                   | some (o, rest2) => some (Json.obj o, rest2)
                   | none => none) from rfl]
          rw [ihM k v t rest (by rw [sizeJson, sizeObj] at hsz; omega)]
    · intro h t rest hsz
      rw [parseItems,
        ihV h (dumpsArrRest t ++ ']' :: rest) (by omega) (numBoundary_arrRest t rest)]
      dsimp only
      cases t with
      | nil =>
        rw [dumpsArrRest, List.nil_append, skipWs_cons_of_not_ws _ (by decide)]
        dsimp only
        rw [if_neg (by decide), if_pos rfl]
      | cons h2 t2 =>
        rw [dumpsArrRest]
        simp only [List.cons_append, List.append_assoc]
        rw [skipWs_cons_of_not_ws _ (by decide)]
        dsimp only
        rw [if_pos rfl, skipWs_cons_of_ws _ (by decide), skipWs_dumps_append,
          ihI h2 t2 rest (by rw [sizeArr] at hsz; omega)]
    · intro k v t rest hsz
      rw [show parseMembers (fuel + 1) ('"' :: (escapeChars k.data ++
            '"' :: (':' :: ' ' :: (dumpsJson v ++ (dumpsObjRest t ++ '\x7d' :: rest))))) =
              (match parseStringBody (escapeChars k.data ++
                  '"' :: (':' :: ' ' :: (dumpsJson v ++ (dumpsObjRest t ++ '\x7d' :: rest)))) with
               | none => none
               | some (kk, rest1) =>
                 (match skipWs rest1 with
                  | [] => none
                  | c2 :: rest2 =>
                    if c2 = ':' then
                      match parseValue fuel rest2 with
                      | none => none
                      | some (vv, rest3) =>
                        (match skipWs rest3 with
                         | [] => none
                         | c3 :: rest4 =>
                           if c3 = ',' then
                             match parseMembers fuel (skipWs rest4) with
                             | some (o, rest5) => some (JObj.cons (String.mk kk) vv o, rest5)
                             | none => none
                           else if c3 = '\x7d' then
                             some (JObj.cons (String.mk kk) vv JObj.nil, rest4)
                           else none)
                    else none)) from rfl]
      rw [parseStringBody_escape]
      dsimp only
      rw [skipWs_cons_of_not_ws _ (by decide)]
      dsimp only
      rw [if_pos rfl, parseValue_ws_drop fuel _ (by decide),
        ihV v (dumpsObjRest t ++ '\x7d' :: rest) (by omega) (numBoundary_objRest t rest)]
      dsimp only
      cases t with
      | nil =>
        rw [dumpsObjRest, List.nil_append, skipWs_cons_of_not_ws _ (by decide)]
        dsimp only
        rw [if_neg (by decide), if_pos rfl, string_mk_data]
      | cons k2 v2 t2 =>
        rw [dumpsObjRest]
        simp only [List.cons_append, List.append_assoc]
        rw [skipWs_cons_of_not_ws _ (by decide)]
        dsimp only
        rw [if_pos rfl, skipWs_cons_of_ws _ (by decide), dumpsString]
        simp only [List.cons_append, List.append_assoc, List.singleton_append,
          List.nil_append]
        rw [skipWs_cons_of_not_ws _ (by decide),
          ihM k2 v2 t2 rest (by rw [sizeObj] at hsz; omega)]

theorem dumps_length_aux (n : Nat) :
    (∀ v, sizeJson v ≤ n → sizeJson v ≤ (dumpsJson v).length + 1) ∧
    (∀ a, sizeArr a ≤ n → sizeArr a ≤ (dumpsArrRest a).length) ∧
    (∀ o, sizeObj o ≤ n → sizeObj o ≤ (dumpsObjRest o).length) := by
  induction n with
  | zero =>
    refine ⟨?_, ?_, ?_⟩
    · intro v hsz
      exact absurd hsz (by have := sizeJson_pos v; omega)
    · intro a hsz
      cases a with
      | nil => rw [sizeArr]; omega
      | cons h t => rw [sizeArr] at hsz; exact absurd hsz (by omega)
    · intro o hsz
      cases o with
      | nil => rw [sizeObj]; omega
      | cons k v t => rw [sizeObj] at hsz; exact absurd hsz (by omega)
  | succ n ih =>
    obtain ⟨ihV, ihA, ihO⟩ := ih
    refine ⟨?_, ?_, ?_⟩
    · intro v hsz
      cases v with
      | null => rw [sizeJson]; omega
      | bool b => rw [sizeJson]; omega
      | int m => rw [sizeJson]; omega
      | str s => rw [sizeJson]; omega
      | arr a =>
        cases a with
        | nil => rw [sizeJson, sizeArr]; omega
        | cons h t =>
          rw [sizeJson, sizeArr] at hsz ⊢
          have h1 := ihV h (by omega)
          have h2 := ihA t (by omega)
          rw [dumpsJson]
          simp only [List.length_cons, List.length_append, List.length_singleton]
          omega
      | obj o =>
        cases o with
        | nil => rw [sizeJson, sizeObj]; omega
        | cons k v t =>
          rw [sizeJson, sizeObj] at hsz ⊢
          have h1 := ihV v (by omega)
          have h2 := ihO t (by omega)
          rw [dumpsJson]
          simp only [List.length_cons, List.length_append, List.length_singleton]
          omega
    · intro a hsz
      cases a with
      | nil => rw [sizeArr]; omega
      | cons h t =>
        rw [sizeArr] at hsz ⊢
        have h1 := ihV h (by omega)
        have h2 := ihA t (by omega)
        rw [dumpsArrRest]
        simp only [List.length_cons, List.length_append]
        omega
    · intro o hsz
      cases o with
      | nil => rw [sizeObj]; omega
      | cons k v t =>
        rw [sizeObj] at hsz ⊢
        have h1 := ihV v (by omega)
        have h2 := ihO t (by omega)
        rw [dumpsObjRest]
        simp only [List.length_cons, List.length_append]
        omega

/-- json.loads inverts json.dumps on every modelled JSON value. -/
theorem jsonLoads_dumps (v : Json) : jsonLoads (jsonDumps v) = some v := by
  rw [jsonLoads]
  have hdata : (jsonDumps v).data = dumpsJson v := rfl
  rw [hdata]
  have hfuel : sizeJson v ≤ (dumpsJson v).length + 1 :=
    (dumps_length_aux (sizeJson v)).1 v le_rfl
  have hparse := (parse_dumps_aux ((dumpsJson v).length + 1)).1 v [] hfuel numBoundary_nil
  rw [List.append_nil] at hparse
  rw [hparse]
  rfl

/-! ### Helper lemmas: store mapping and file system -/

theorem objGet_objSet : ∀ (m : JObj) (k : String) (v : Json),
    objGet (objSet m k v) k = some v
  | .nil, k, v => by rw [objSet, objGet, if_pos rfl]
  | .cons k2 v2 t, k, v => by
    rw [objSet]
    by_cases h : k2 = k
    · rw [if_pos h, objGet, if_pos h]
    · rw [if_neg h, objGet, if_neg h, objGet_objSet t k v]

theorem append_tilde_ne (p : String) : p ++ "~" ≠ p := by
  intro h
  have hlen := congrArg String.length h
  rw [String.length_append] at hlen
  have : ("~" : String).length = 1 := rfl
  omega

theorem dirname_append_tilde (p : String) : dirname (p ++ "~") = dirname p := by
  rw [dirname, dirname]
  have hdata : (p ++ "~").data = p.data ++ ['~'] := by
    rw [String.data_append]
  rw [hdata, List.reverse_append]
  have h1 : (['~'] : List Char).reverse ++ p.data.reverse = '~' :: p.data.reverse := rfl
  rw [h1, List.dropWhile_cons,
    if_pos (show (('~' : Char) != '/') = true by decide)]

theorem makedirs_files (fuel : Nat) : ∀ (fs : FS) (d : String),
    (makedirs fs d fuel).files = fs.files := by
  induction fuel with
  | zero => intro fs d; rfl
  | succ fuel ih =>
    intro fs d
    rw [makedirs]
    by_cases h : d ∈ fs.dirs ∨ d = ""
    · rw [if_pos h]
    · rw [if_neg h]
      exact ih fs (dirname d)

theorem ensureDir_files (fs : FS) (path : String) :
    (ensureDir fs path).files = fs.files := by
  rw [ensureDir]
  by_cases h : dirname path ∈ fs.dirs
  · rw [if_pos h]
  · rw [if_neg h]
    exact makedirs_files _ fs _

theorem ensureDir_mem (fs : FS) (path : String) :
    dirname path ∈ (ensureDir fs path).dirs ∨ dirname path = "" := by
  rw [ensureDir]
  by_cases h : dirname path ∈ fs.dirs
  · rw [if_pos h]
    exact Or.inl h
  · rw [if_neg h]
    by_cases h0 : dirname path = ""
    · exact Or.inr h0
    · left
      rw [makedirs, if_neg (by tauto)]
      exact List.mem_cons_self _ _

theorem updateFile_same (f : String → Option String) (p : String) (v : Option String) :
    updateFile f p v p = v := by
  rw [updateFile]
  simp

theorem updateFile_other (f : String → Option String) (p : String) (v : Option String)
    {q : String} (h : q ≠ p) : updateFile f p v q = f q := by
  rw [updateFile]
  simp [h]

/-! ### Claim theorems -/

/-- C6: for every key and JSON-compatible value, calling set then get on
the same store state returns that value, and after the set, re-parsing
the serialized file content written to disk and reading the key yields
the same value (round trip through serialization). -/
theorem c6_settings_set_get_roundtrip (s : SettingsState) (k : String) (v : Json)
    (m : JObj) (hload : loadValues s = some m) :
    ∃ s2, settings_set s k v = some s2 ∧
      settings_get s2 k = some (some v) ∧
      ∃ text, s2.fileContent = some text ∧
        ∃ m2, jsonLoads text = some (Json.obj m2) ∧ objGet m2 k = some v := by
  rw [settings_set, hload]
  refine ⟨_, rfl, ?_, ?_⟩
  · rw [settings_get]
    rw [show loadValues
        { fileContent := some (jsonDumps (Json.obj (objSet m k v))),
          cache := some (objSet m k v) } = some (objSet m k v) from rfl]
    rw [show (some (objSet m k v)).map (fun m2 => objGet m2 k) =
        some (objGet (objSet m k v) k) from rfl]
    rw [objGet_objSet]
  · exact ⟨_, rfl, objSet m k v, jsonLoads_dumps _, objGet_objSet m k v⟩

/-- Witness for C6 at a concrete store state, key and value. -/
theorem c6_settings_set_get_roundtrip_witness :
    loadValues ⟨none, none⟩ = some JObj.nil ∧
    (∃ s2, settings_set ⟨none, none⟩ "default-api-key" (Json.str "x") = some s2 ∧
      settings_get s2 "default-api-key" = some (some (Json.str "x")) ∧
      ∃ text, s2.fileContent = some text ∧
        ∃ m2, jsonLoads text = some (Json.obj m2) ∧
          objGet m2 "default-api-key" = some (Json.str "x")) :=
  ⟨rfl, c6_settings_set_get_roundtrip ⟨none, none⟩ "default-api-key" (Json.str "x")
    JObj.nil rfl⟩

/-- C7: write_file creates the missing parent directory, writes the data
to the sibling temporary path obtained by appending the marker, and
renames it onto the target; at every observable stage the target path
holds either its prior content or the full new data, after the rename it
holds exactly the new data and the temporary file is gone, and the
temporary path lives in the same directory as the target. -/
theorem c7_write_file_atomic (fs : FS) (path data : String) :
    (∀ st, (write_file_stage fs path data st).files path = fs.files path ∨
      (write_file_stage fs path data st).files path = some data) ∧
    (write_file_stage fs path data .renamed).files path = some data ∧
    (write_file_stage fs path data .renamed).files (path ++ "~") = none ∧
    dirname (path ++ "~") = dirname path ∧
    (dirname path ∈ (ensureDir fs path).dirs ∨ dirname path = "") := by
  have hne : path ≠ path ++ "~" := (append_tilde_ne path).symm
  refine ⟨?_, ?_, ?_, dirname_append_tilde path, ensureDir_mem fs path⟩
  · intro st
    cases st with
    | start => exact Or.inl rfl
    | dirEnsured =>
      rw [write_file_stage, ensureDir_files]
      exact Or.inl rfl
    | tempWritten w =>
      rw [write_file_stage]
      dsimp only
      rw [updateFile_other _ _ _ hne, ensureDir_files]
      exact Or.inl rfl
    | renamed =>
      rw [write_file_stage]
      dsimp only
      rw [updateFile_same]
      exact Or.inr rfl
  · rw [write_file_stage]
    dsimp only
    rw [updateFile_same]
  · rw [write_file_stage]
    dsimp only
    rw [updateFile_other _ _ _ (append_tilde_ne path), updateFile_same]

/-- C1: for every notification invocation, the positional values are
normalized as follows: with both positionals absent, a url value must be
present and becomes the description (otherwise validation fails with the
missing-description error) and no event is set; with exactly the first
positional given, that value becomes the description and no event is
set; with both given, the first stays the event and the second the
description. -/
theorem c1_positionals_normalization (a : Args) (hset : a.set_api_key = none)
    (hpri : -2 ≤ a.priority ∧ a.priority ≤ 2) :
    (a.event = none → a.description = none →
      (a.url = none → parse_args_check a = .error missingDescriptionError) ∧
      (∀ u, a.url = some u →
        parse_args_check a = .ok { a with event := none, description := some u })) ∧
    (∀ v, a.event = some v → a.description = none →
      parse_args_check a = .ok { a with event := none, description := some v }) ∧
    (∀ v w, a.event = some v → a.description = some w →
      parse_args_check a = .ok a) := by
  obtain ⟨ev, de, ap, u, pr, ak, sk⟩ := a
  dsimp only at hset hpri ⊢
  subst hset
  refine ⟨?_, ?_, ?_⟩
  · intro he hd
    subst he
    subst hd
    constructor
    · intro hu
      subst hu
      rw [parse_args_check]
    · intro u2 hu
      subst hu
      rw [parse_args_check]
      dsimp only
      rw [if_pos hpri]
  · intro v he hd
    subst he
    subst hd
    rw [parse_args_check]
    dsimp only
    rw [if_pos hpri]
  · intro v w he hd
    subst he
    subst hd
    rw [parse_args_check]
    dsimp only
    rw [if_pos hpri]

/-- Witness for C1 at a concrete two-positional invocation. -/
theorem c1_positionals_normalization_witness :
    parse_args_check ⟨some "build", some "done", none, none, 0, none, none⟩ =
      .ok ⟨some "build", some "done", none, none, 0, none, none⟩ :=
  (c1_positionals_normalization ⟨some "build", some "done", none, none, 0, none, none⟩
    rfl (by decide)).2.2 "build" "done" rfl rfl

/-- Counterexample to C2 as stated: a supplied application value "0" does
not pass through unmodified; the api_argument_type conversion also
applies to the application flag, so the composed request carries
application "0 ". -/
theorem c2_counterexample :
    runProwl { positionals := ["build", "done"], application := some "0",
               apiKey := some "0123456789abcdef0123456789abcdef01234567" }
        none "alice" "box" =
      .effect (.post
        [("apikey", .str "0123456789abcdef0123456789abcdef01234567"),
         ("application", .str "0 "), ("event", .str "build"),
         ("description", .str "done")]) ∧
    ("0 " : String) ≠ "0" := by decide

/-- C2 as amended: the literal value "0" is rewritten to "0 " at
argument-conversion time for the event and description positionals and
for the application flag, while a url value and the API key pass into
the composed request unmodified. -/
theorem c2_amended_rewrite_scope (e d apl u k user host : String)
    (stored : Option String) (hk : api_key_matches k = true) (hd : d ≠ "") :
    runProwl { positionals := [e, d], application := some apl, url := some u,
               apiKey := some k } stored user host =
      .effect (.post
        [("apikey", .str k),
         ("application", .str (if apl = "0" then apl ++ " " else apl)),
         ("url", .str u),
         ("event", .str (if e = "0" then e ++ " " else e)),
         ("description", .str (if d = "0" then d ++ " " else d))]) := by
  have hde : api_argument_type d ≠ "" := by
    rw [api_argument_type]
    by_cases h0 : d = "0"
    · rw [if_pos h0, h0]
      decide
    · rw [if_neg h0]
      exact hd
  have hak : api_key_type k = Except.ok k := by
    rw [api_key_type.eq_def, if_pos hk]
  have hlen : ¬(2 < [e, d].length) := by simp
  rw [runProwl, parse_args, if_neg hlen, convKey, convKey, hak]
  dsimp only [List.get?, Option.map, Option.getD, Except.map]
  rw [parse_args_check]
  dsimp only
  rw [if_pos (show (-2 : Int) ≤ 0 ∧ (0 : Int) ≤ 2 by decide)]
  dsimp only
  rw [main]
  dsimp only
  rw [iter_arguments.eq_def]
  dsimp only
  rw [if_neg hde, if_pos rfl]
  simp only [List.cons_append, List.nil_append, List.append_nil, List.singleton_append]
  rfl

/-- Witness for C2 as amended, showing the rewrite on the application
value and the unmodified url. -/
theorem c2_amended_rewrite_scope_witness :
    runProwl { positionals := ["build", "0"], application := some "0",
               url := some "0", apiKey := some "0123456789abcdef0123456789abcdef01234567" }
        none "alice" "box" =
      .effect (.post
        [("apikey", .str "0123456789abcdef0123456789abcdef01234567"),
         ("application", .str (if "0" = "0" then "0" ++ " " else "0")),
         ("url", .str "0"),
         ("event", .str (if "build" = "0" then "build" ++ " " else "build")),
         ("description", .str (if "0" = "0" then "0" ++ " " else "0"))]) :=
  c2_amended_rewrite_scope "build" "0" "0" "0"
    "0123456789abcdef0123456789abcdef01234567" "alice" "box" none (by decide) (by decide)

/-- A successful fixed-repetition match splits the input after exactly n
matching characters. -/
theorem matchRepeat_eq_some (p : Char → Bool) :
    ∀ (n : Nat) (cs rest : List Char),
      matchRepeat p n cs = some rest ↔
        ∃ pre, cs = pre ++ rest ∧ pre.length = n ∧ ∀ c ∈ pre, p c = true := by
  intro n
  induction n with
  | zero =>
    intro cs rest
    rw [matchRepeat]
    constructor
    · intro h
      injection h with h
      exact ⟨[], by rw [h, List.nil_append], rfl, by simp⟩
    · rintro ⟨pre, hcs, hlen, -⟩
      rw [List.length_eq_zero] at hlen
      subst hlen
      rw [List.nil_append] at hcs
      rw [hcs]
  | succ n ih =>
    intro cs rest
    cases cs with
    | nil =>
      rw [matchRepeat]
      constructor
      · intro h
        exact nomatch h
      · rintro ⟨pre, hcs, hlen, -⟩
        have hlen2 := congrArg List.length hcs
        rw [List.length_append, hlen] at hlen2
        simp only [List.length_nil] at hlen2
        omega
    | cons c cs' =>
      rw [matchRepeat]
      by_cases hp : p c = true
      · rw [if_pos hp, ih]
        constructor
        · rintro ⟨pre, hcs, hlen, hall⟩
          refine ⟨c :: pre, by rw [List.cons_append, hcs], by simp [hlen], ?_⟩
          intro x hx
          rcases List.mem_cons.mp hx with h | h
          · subst h
            exact hp
          · exact hall x h
        · rintro ⟨pre, hcs, hlen, hall⟩
          cases pre with
          | nil => exact absurd hlen (by simp)
          | cons p0 pre' =>
            injection hcs with h1 h2
            subst h1
            exact ⟨pre', h2, by simpa using hlen,
              fun x hx => hall x (List.mem_cons_of_mem _ hx)⟩
      · rw [if_neg hp]
        constructor
        · intro h
          exact nomatch h
        · rintro ⟨pre, hcs, hlen, hall⟩
          cases pre with
          | nil => exact absurd hlen (by simp)
          | cons p0 pre' =>
            injection hcs with h1 h2
            subst h1
            exact absurd (hall c (List.mem_cons_self _ _)) hp

/-- Counterexample to C3 as stated: the key validator also accepts forty
lowercase hex digits followed by one newline, a string of length 41,
because Python's end anchor matches before a trailing newline. -/
theorem c3_counterexample :
    api_key_matches "0123456789abcdef0123456789abcdef01234567\n" = true ∧
    ("0123456789abcdef0123456789abcdef01234567\n").length ≠ 40 := by decide

/-- C3 as amended: the key validator accepts a string exactly when it
consists of forty lowercase hexadecimal digits, optionally followed by
one trailing newline; everything else is rejected. -/
theorem c3_amended_key_pattern (s : String) :
    api_key_matches s = true ↔
      ∃ cs, (s.data = cs ∨ s.data = cs ++ ['\n']) ∧ cs.length = 40 ∧
        ∀ c ∈ cs, isLowerHex c = true := by
  rw [api_key_matches.eq_def]
  constructor
  · intro h
    cases hm : matchRepeat isLowerHex 40 s.data with
    | none =>
      rw [hm] at h
      exact nomatch h
    | some rest =>
      rw [hm] at h
      obtain ⟨pre, hcs, hlen, hall⟩ := (matchRepeat_eq_some isLowerHex 40 s.data rest).mp hm
      cases rest with
      | nil =>
        rw [List.append_nil] at hcs
        exact ⟨pre, Or.inl hcs, hlen, hall⟩
      | cons r rs =>
        have h2 : r = '\n' ∧ rs = [] := of_decide_eq_true h
        rw [h2.1, h2.2] at hcs
        exact ⟨pre, Or.inr hcs, hlen, hall⟩
  · rintro ⟨cs, hdisj | hdisj, hlen, hall⟩
    · have hm := (matchRepeat_eq_some isLowerHex 40 s.data []).mpr
        ⟨cs, by rw [List.append_nil]; exact hdisj, hlen, hall⟩
      rw [hm]
      rfl
    · have hm := (matchRepeat_eq_some isLowerHex 40 s.data ['\n']).mpr
        ⟨cs, hdisj, hlen, hall⟩
      rw [hm]
      rfl

/-- Counterexample to C4 as stated: with a stored default key that does
not match the pattern and no key flag, no validation failure occurs; the
run proceeds and composes the request with the invalid stored value. -/
theorem c4_counterexample :
    api_key_matches "not-a-valid-key!" = false ∧
    runProwl { positionals := ["hello"] } (some "not-a-valid-key!") "alice" "box" =
      .effect (.post
        [("apikey", .str "not-a-valid-key!"), ("application", .str "alice@box"),
         ("description", .str "hello")]) := by decide

/-- C4 as amended: a stored default key is used exactly as retrieved,
with no pattern check at retrieval time; the forty-hex-digit validation
applies only to keys supplied on the command line.  For every stored
string, the notification is composed with that string as apikey. -/
theorem c4_amended_stored_key_unchecked (a : Args) (s user host : String)
    (hset : a.set_api_key = none) (hk : a.api_key = none) :
    main a (some s) user host =
      .ok (.post (iter_arguments s (a.application.getD (user ++ "@" ++ host))
        a.url a.event a.description a.priority)) := by
  obtain ⟨ev, de, ap, u, pr, ak, sk⟩ := a
  dsimp only at hset hk ⊢
  subst hset
  subst hk
  cases ap with
  | none => rfl
  | some app => rfl

/-- Witness for C4 as amended at a concrete invalid stored value. -/
theorem c4_amended_stored_key_unchecked_witness :
    main ⟨none, some "hello", none, none, 0, none, none⟩ (some "zz") "alice" "box" =
      .ok (.post (iter_arguments "zz"
        ((none : Option String).getD ("alice" ++ "@" ++ "box"))
        none none (some "hello") 0)) :=
  c4_amended_stored_key_unchecked ⟨none, some "hello", none, none, 0, none, none⟩
    "zz" "alice" "box" rfl rfl

/-- Counterexample to C5 as stated: supplying the priority flag with its
value 0 together with the set-key operation is not rejected; argparse
leaves priority 0 indistinguishable from the default, the
mutual-exclusion check passes, and the settings write proceeds. -/
theorem c5_counterexample :
    runProwl { positionals := [], priority := some 0,
               setApiKey := some "0123456789abcdef0123456789abcdef01234567" }
        none "u" "h" =
      .effect (.store "default-api-key"
        "0123456789abcdef0123456789abcdef01234567") := by decide

/-- C5 as amended: supplying the set-key operation together with a
positional, an application, a url, a key flag, or a nonzero priority
fails with the mutual-exclusion error, so neither a settings write nor a
network call happens; a supplied priority of 0 is the one exception,
being indistinguishable from the absent flag. -/
theorem c5_amended_mutual_exclusion (c : CmdLine) (k : String) (stored : Option String)
    (user host : String) (hset : c.setApiKey = some k) (hk : api_key_matches k = true)
    (hkey : ∀ x, c.apiKey = some x → api_key_matches x = true)
    (hlen : c.positionals.length ≤ 2)
    (hother : c.positionals ≠ [] ∨ c.application ≠ none ∨ c.url ≠ none ∨
      c.apiKey ≠ none ∨ c.priority.getD 0 ≠ 0) :
    runProwl c stored user host = .fail mutualExclusionError := by
  obtain ⟨pos, ap, u, pr, ak, sk⟩ := c
  dsimp only at hset hkey hlen hother ⊢
  subst hset
  have hak : api_key_type k = Except.ok k := by
    rw [api_key_type.eq_def, if_pos hk]
  rw [runProwl, parse_args]
  dsimp only
  rw [if_neg (by omega : ¬2 < pos.length), convKey, hak]
  cases ak with
  | none =>
    rw [convKey]
    dsimp only [Except.map]
    rw [parse_args_check]
    dsimp only
    have hcond : Option.map api_argument_type (pos.get? 0) ≠ none ∨
        Option.map api_argument_type (pos.get? 1) ≠ none ∨
        Option.map api_argument_type ap ≠ none ∨ u ≠ none ∨ pr.getD 0 ≠ 0 ∨
        (none : Option String) ≠ none := by
      rcases hother with hpos | hap | hu | hak2 | hpr
      · left
        cases pos with
        | nil => exact absurd rfl hpos
        | cons p0 ps => simp [List.get?]
      · right; right; left
        cases ap with
        | none => exact absurd rfl hap
        | some y => simp [Option.map]
      · right; right; right; left
        exact hu
      · exact absurd rfl hak2
      · right; right; right; right; left
        exact hpr
    rw [if_pos hcond]
  | some x =>
    have hax : api_key_type x = Except.ok x := by
      rw [api_key_type.eq_def, if_pos (hkey x rfl)]
    rw [convKey, hax]
    dsimp only [Except.map]
    rw [parse_args_check]
    dsimp only
    have hcond : Option.map api_argument_type (pos.get? 0) ≠ none ∨
        Option.map api_argument_type (pos.get? 1) ≠ none ∨
        Option.map api_argument_type ap ≠ none ∨ u ≠ none ∨ pr.getD 0 ≠ 0 ∨
        (some x : Option String) ≠ none := by
      right; right; right; right; right
      simp
    rw [if_pos hcond]

/-- Witness for C5 as amended: set-key together with a url flag fails
with the mutual-exclusion error. -/
theorem c5_amended_mutual_exclusion_witness :
    runProwl { positionals := [], url := some "http://x",
               setApiKey := some "0123456789abcdef0123456789abcdef01234567" }
        none "u" "h" = .fail mutualExclusionError :=
  c5_amended_mutual_exclusion _ "0123456789abcdef0123456789abcdef01234567" none "u" "h"
    rfl (by decide) (fun x hx => nomatch hx) (by decide)
    (Or.inr (Or.inr (Or.inl (fun h => nomatch h))))

/-- Key presence in one composed field list, by cases on the optional
inputs. -/
theorem iter_arguments_keys (k app : String) (url event description : Option String)
    (priority : Int) :
    "apikey" ∈ (iter_arguments k app url event description priority).map Prod.fst ∧
    "application" ∈ (iter_arguments k app url event description priority).map Prod.fst ∧
    ("url" ∈ (iter_arguments k app url event description priority).map Prod.fst ↔
      url ≠ none) ∧
    ("event" ∈ (iter_arguments k app url event description priority).map Prod.fst ↔
      event ≠ none) ∧
    ("priority" ∈ (iter_arguments k app url event description priority).map Prod.fst ↔
      priority ≠ 0) := by
  rcases url with _ | uu <;> rcases event with _ | ee <;> rcases description with _ | dd <;>
    rw [iter_arguments.eq_def] <;> dsimp only <;> split_ifs <;> simp_all

/-- C8: every composed notification request carries apikey and
application; it carries url and event exactly when those values are
present; and it carries priority exactly when the priority is nonzero. -/
theorem c8_field_presence (a : Args) (stored : Option String) (user host : String)
    (fields : List (String × FieldVal))
    (h : main a stored user host = .ok (.post fields)) :
    "apikey" ∈ fields.map Prod.fst ∧ "application" ∈ fields.map Prod.fst ∧
    ("url" ∈ fields.map Prod.fst ↔ a.url ≠ none) ∧
    ("event" ∈ fields.map Prod.fst ↔ a.event ≠ none) ∧
    ("priority" ∈ fields.map Prod.fst ↔ a.priority ≠ 0) := by
  obtain ⟨ev, de, ap, u, pr, ak, sk⟩ := a
  dsimp only at h ⊢
  cases sk with
  | some skk => simp [main] at h
  | none =>
    cases ak with
    | some kk =>
      simp only [main] at h
      rw [Except.ok.injEq, MainEffect.post.injEq] at h
      rw [← h]
      exact iter_arguments_keys kk _ u ev de pr
    | none =>
      cases stored with
      | none => simp [main] at h
      | some s =>
        simp only [main] at h
        rw [Except.ok.injEq, MainEffect.post.injEq] at h
        rw [← h]
        exact iter_arguments_keys s _ u ev de pr

/-- Witness for C8 at a concrete invocation carrying every field. -/
theorem c8_field_presence_witness :
    main ⟨some "e", some "hello", some "app", some "http://x", 2, some "k", none⟩
        none "u" "h" =
      .ok (.post [("apikey", .str "k"), ("application", .str "app"),
        ("url", .str "http://x"), ("event", .str "e"),
        ("description", .str "hello"), ("priority", .int 2)]) ∧
    ("apikey" ∈ ([("apikey", FieldVal.str "k"), ("application", FieldVal.str "app"),
        ("url", FieldVal.str "http://x"), ("event", FieldVal.str "e"),
        ("description", FieldVal.str "hello"),
        ("priority", FieldVal.int 2)]).map Prod.fst ∧
      "application" ∈ ([("apikey", FieldVal.str "k"), ("application", FieldVal.str "app"),
        ("url", FieldVal.str "http://x"), ("event", FieldVal.str "e"),
        ("description", FieldVal.str "hello"),
        ("priority", FieldVal.int 2)]).map Prod.fst ∧
      ("url" ∈ ([("apikey", FieldVal.str "k"), ("application", FieldVal.str "app"),
        ("url", FieldVal.str "http://x"), ("event", FieldVal.str "e"),
        ("description", FieldVal.str "hello"),
        ("priority", FieldVal.int 2)]).map Prod.fst ↔ (some "http://x" : Option String) ≠ none) ∧
      ("event" ∈ ([("apikey", FieldVal.str "k"), ("application", FieldVal.str "app"),
        ("url", FieldVal.str "http://x"), ("event", FieldVal.str "e"),
        ("description", FieldVal.str "hello"),
        ("priority", FieldVal.int 2)]).map Prod.fst ↔ (some "e" : Option String) ≠ none) ∧
      ("priority" ∈ ([("apikey", FieldVal.str "k"), ("application", FieldVal.str "app"),
        ("url", FieldVal.str "http://x"), ("event", FieldVal.str "e"),
        ("description", FieldVal.str "hello"),
        ("priority", FieldVal.int 2)]).map Prod.fst ↔ (2 : Int) ≠ 0)) :=
  ⟨rfl, c8_field_presence
    ⟨some "e", some "hello", some "app", some "http://x", 2, some "k", none⟩
    none "u" "h" _ rfl⟩

/-- C9, evaluating script_main at the failing input: the out-of-range
priority raises the UserError built from the template and the integer
argument; log prints str(e), which for the two-element args tuple is the
tuple repr, so the line shown is the program name prefix followed by the
repr of the unformatted template and the argument rather than the
formatted message computed by the constructor; the exit status is 1, and
an interrupt exits 2. -/
theorem c9_error_message_bug :
    runProwl { positionals := ["hello"], priority := some 3 } none "u" "h" =
      .fail (priorityError 3) ∧
    script_main "prowl" (.fail (priorityError 3)) =
      ⟨1, ["prowl: Error: (\x27Invalid value for --priority: \x7b\x7d\x27, 3)"]⟩ ∧
    (priorityError 3).message = "Invalid value for --priority: 3" ∧
    log_line "prowl" ("Error: " ++ (priorityError 3).message) =
      "prowl: Error: Invalid value for --priority: 3" ∧
    "prowl: Error: (\x27Invalid value for --priority: \x7b\x7d\x27, 3)" ≠
      "prowl: Error: Invalid value for --priority: 3" ∧
    interruptExit "prowl" = ⟨2, ["prowl: Operation interrupted."]⟩ := by decide

/-- The description field never appears when the resolved description is
the empty string. -/
theorem iter_arguments_no_empty_description (k app : String) (url event : Option String)
    (priority : Int) :
    "description" ∉ (iter_arguments k app url event (some "") priority).map Prod.fst := by
  rcases url with _ | uu <;> rcases event with _ | ee <;>
    rw [iter_arguments.eq_def] <;> dsimp only <;> split_ifs <;> simp_all

/-- C10: an invocation whose resolved description is the empty string
passes validation (the missing-description check fires only when both
positionals and the url flag are absent), but the description field is
omitted entirely from the composed request, while an empty event is
still sent. -/
theorem c10_empty_description (k user host : String) (stored : Option String)
    (hk : api_key_matches k = true) :
    runProwl { positionals := [""], apiKey := some k } stored user host =
      .effect (.post [("apikey", .str k),
        ("application", .str (user ++ "@" ++ host))]) ∧
    runProwl { positionals := ["", "x"], apiKey := some k } stored user host =
      .effect (.post [("apikey", .str k),
        ("application", .str (user ++ "@" ++ host)),
        ("event", .str ""), ("description", .str "x")]) ∧
    (∀ a fields, a.description = some "" →
      main a stored user host = .ok (.post fields) →
      "description" ∉ fields.map Prod.fst) := by
  have hak : api_key_type k = Except.ok k := by
    rw [api_key_type.eq_def, if_pos hk]
  refine ⟨?_, ?_, ?_⟩
  · rw [runProwl, parse_args]
    dsimp only
    rw [if_neg (by decide : ¬2 < ([""] : List String).length), convKey, convKey, hak]
    rfl
  · rw [runProwl, parse_args]
    dsimp only
    rw [if_neg (by decide : ¬2 < (["", "x"] : List String).length), convKey, convKey, hak]
    rfl
  · intro a fields hdesc h
    obtain ⟨ev, de, ap, u, pr, ak, sk⟩ := a
    dsimp only at hdesc h
    subst hdesc
    cases sk with
    | some skk => simp [main] at h
    | none =>
      cases ak with
      | some kk =>
        simp only [main] at h
        rw [Except.ok.injEq, MainEffect.post.injEq] at h
        rw [← h]
        exact iter_arguments_no_empty_description kk _ u ev pr
      | none =>
        cases stored with
        | none => simp [main] at h
        | some s =>
          simp only [main] at h
          rw [Except.ok.injEq, MainEffect.post.injEq] at h
          rw [← h]
          exact iter_arguments_no_empty_description s _ u ev pr

/-- Witness for C10 at a concrete key, user and host. -/
theorem c10_empty_description_witness :
    runProwl { positionals := [""],
               apiKey := some "0123456789abcdef0123456789abcdef01234567" } none "u" "h" =
      .effect (.post [("apikey", .str "0123456789abcdef0123456789abcdef01234567"),
        ("application", .str ("u" ++ "@" ++ "h"))]) :=
  (c10_empty_description "0123456789abcdef0123456789abcdef01234567" "u" "h" none
    (by decide)).1

end Prowl
